import Mathlib

/-!
Verification development for the nasnet-panel auxiliary scripts:

* `apps/backend/scripts/gen_stubs.py` — regex-based interface extraction,
  signature parsing and zero-value stub synthesis;
* `apps/backend/scripts/find_missing.py` — interface contract extraction,
  implementation scanning and missing-method reporting;
* `libs/star-setup/src/locales/translate_and_update.py` — the locale
  translation batch tool (backup, three phases, retry loop).

The Python scripts are shallowly embedded below.  Strings are processed over
`List Char` (mirroring the Python per-character regex scanning and string
methods), file systems are association lists from file name to file content,
and fallible operations (unreadable files, dictionary `KeyError`, `sys.exit`)
are modelled with `Except`/`Option`.
-/

/-! ### Character and string primitives (Python string methods over List Char) -/

/-- Python regex `\w` on ASCII input: letters, digits and underscore. -/
def isWordChar (c : Char) : Bool :=
  c.isAlphanum || c = '_'

/-- Python `str.strip` whitespace set (ASCII): space, tab, newline, CR, VT, FF. -/
def pyIsSpace (c : Char) : Bool :=
  c = ' ' || c = '\t' || c = '\n' || c = '\r' || c = '\x0b' || c = '\x0c'

/-- Python `str.strip()` over a character list. -/
def stripChars (cs : List Char) : List Char :=
  ((cs.dropWhile pyIsSpace).reverse.dropWhile pyIsSpace).reverse

/-- Python `str.strip()`. -/
def pyStrip (s : String) : String :=
  String.mk (stripChars s.data)

/-- Python `str.split(sep)` for a one-character separator.  Splitting the
empty string yields `[""]`, as in Python. -/
def splitChar (sep : Char) : List Char → List (List Char)
  | [] => [[]]
  | c :: cs =>
    let r := splitChar sep cs
    if c = sep then [] :: r
    else
      match r with
      | [] => [[c]]
      | g :: gs => (c :: g) :: gs

/-- Python `str.split(sep)` for a one-character separator, on `String`. -/
def pySplit (sep : Char) (s : String) : List String :=
  (splitChar sep s.data).map String.mk

/-- Python `str.startswith`. -/
def pyStartsWith (s pre : String) : Bool :=
  pre.data.isPrefixOf s.data

/-- Python `str.endswith`. -/
def pyEndsWith (s suf : String) : Bool :=
  suf.data.isSuffixOf s.data

/-- Python `sep.join(xs)`. -/
def pyJoin (sep : String) (xs : List String) : String :=
  String.mk (List.intercalate sep.data (xs.map String.data))

/-- Python code-point comparison of strings (`sorted` order), on lists. -/
def lexLe : List Char → List Char → Bool
  | [], _ => true
  | _ :: _, [] => false
  | a :: as, b :: bs =>
    if a.toNat < b.toNat then true
    else if b.toNat < a.toNat then false
    else lexLe as bs

/-- Insert a string into a lexicographically sorted list (helper of `pySorted`). -/
def insertSorted (s : String) : List String → List String
  | [] => [s]
  | t :: ts => if lexLe s.data t.data then s :: t :: ts else t :: insertSorted s ts

/-- Python `sorted` on strings (insertion sort; agrees with the Python
code-point order on ASCII input). -/
def pySorted (xs : List String) : List String :=
  xs.foldr insertSorted []

/-- Python `set.add`: append the element unless already present
(membership-only set semantics, kept as a duplicate-free list). -/
def addToSet (s : String) (set : List String) : List String :=
  if s ∈ set then set else set ++ [s]

/-- Python `set(xs)`: deduplicate a list keeping first occurrences. -/
def listToSet (xs : List String) : List String :=
  xs.foldl (fun acc m => addToSet m acc) []

/-! ### Regex scanning primitives shared by the two code-generation scripts

Both scripts use three regular expressions:
`type <Iface> interface {([^}]+)}` (with `re.DOTALL`),
`\t(\w+)\(` (via `re.findall`), and
`func \(r \*<receiver>\) (\w+)\(` (via `re.search` per line).
Each is a literal marker followed by a character-class capture, so matching is
embedded directly: try each start position from the left, as `re` does. -/

/-- One match attempt of `type X interface {([^}]+)}` at the current position:
the literal marker, then a nonempty maximal run of non-`}` characters, then `}`.
Returns the captured group. -/
def ifaceMatchAt (marker : List Char) (cs : List Char) : Option String :=
  if marker.isPrefixOf cs then
    let rest := cs.drop marker.length
    let body := rest.takeWhile (fun c => c ≠ '\x7d')
    match rest.dropWhile (fun c => c ≠ '\x7d') with
    | '\x7d' :: _ => if body.isEmpty then none else some (String.mk body)
    | _ => none
  else none

/-- `re.search` for `type X interface {([^}]+)}`: first start position (from
the left) at which the whole pattern matches; yields the captured body. -/
def searchIfaceBody (marker : List Char) : List Char → Option String
  | [] => none
  | c :: cs =>
    match ifaceMatchAt marker (c :: cs) with
    | some body => some body
    | none => searchIfaceBody marker cs

/-- One match attempt of `\t(\w+)\(` at the current position. -/
def methodMatchAt (cs : List Char) : Option String :=
  match cs with
  | '\t' :: rest =>
    let w := rest.takeWhile isWordChar
    match rest.dropWhile isWordChar with
    | '(' :: _ => if w.isEmpty then none else some (String.mk w)
    | _ => none
  | _ => none

/-- `re.findall(r"\t(\w+)\(", body)`: all matches from left to right.  A match
span `\t<word>(` contains no further tab, so no match can start inside another
match span and scanning every position yields exactly the matches that
`re.findall` yields, in order. -/
def findMethodNames : List Char → List String
  | [] => []
  | c :: cs =>
    match methodMatchAt (c :: cs) with
    | some m => m :: findMethodNames cs
    | none => findMethodNames cs

/-- One match attempt of `func \(r \*<receiver>\) (\w+)\(` at the current
position (the marker is the literal part `func (r *<receiver>) `). -/
def funcDefMatchAt (marker : List Char) (cs : List Char) : Option String :=
  if marker.isPrefixOf cs then
    let rest := cs.drop marker.length
    let w := rest.takeWhile isWordChar
    match rest.dropWhile isWordChar with
    | '(' :: _ => if w.isEmpty then none else some (String.mk w)
    | _ => none
  else none

/-- `re.search(rf"func \(r \*{receiver}\) (\w+)\(", line)`: first match. -/
def searchFuncDef (marker : List Char) : List Char → Option String
  | [] => none
  | c :: cs =>
    match funcDefMatchAt marker (c :: cs) with
    | some m => some m
    | none => searchFuncDef marker cs

/-! ### gen_stubs.py -/

/-- The hard-coded `missing_mutations` list of `gen_stubs.py`. -/
def missing_mutations : List String :=
  ["CreateRoutingChain", "DeleteInstance", "InstallService",
   "RemoveRoutingChain", "ResetTrafficQuota", "RestartInstance",
   "ReverifyInstance", "SetTrafficQuota", "StartInstance",
   "StopInstance", "UpdateRoutingChain", "ValidateServiceConfig"]

/-- The hard-coded `missing_queries` list of `gen_stubs.py`. -/
def missing_queries : List String :=
  ["GatewayStatus", "InstanceConfig", "InstanceHealth",
   "InstanceVerificationStatus", "RoutingChain", "RoutingChains",
   "ServiceConfigSchema", "ServiceDeviceBreakdown", "ServiceInstance",
   "ServiceInstances", "ServiceTrafficStats", "VirtualInterface",
   "VirtualInterfaces"]

/-- The hard-coded `missing_subscriptions` list of `gen_stubs.py`. -/
def missing_subscriptions : List String :=
  ["InstanceHealthChanged", "InstanceStatusChanged",
   "RoutingChainChanged", "ServiceTrafficUpdated", "VerificationEvents"]

/-- The fixed output header of `gen_stubs.py` (package clause, file comment
and import block), one entry per appended line. -/
def stubsHeader : List String :=
  ["package resolver", "",
   "// This file contains stub implementations for GraphQL resolver methods",
   "// that are defined in the schema but not yet fully implemented.",
   "// Generated to satisfy the interface requirements.", "",
   "import (", "\t\"context\"", "\t\"fmt\"", "", "\t\"backend/graph/model\"",
   ")", ""]

/-- `gen_stubs.py` interface-block extraction: for each of the three
interface names, `re.search` of `type {name} interface {{([^}}]+)}}` over the
file content; only matched names enter the dictionary. -/
def extractIfaceBodies (content : String) : List (String × String) :=
  ["MutationResolver", "QueryResolver", "SubscriptionResolver"].filterMap
    fun n =>
      (searchIfaceBody ("type " ++ n ++ " interface \x7b").data content.data).map
        fun body => (n, body)

/-- `extract_method_sig`: first stripped line of the interface body that
starts with `method_name(`; `None` when no line matches. -/
def extract_method_sig (ifaceBody method : String) : Option String :=
  ((pySplit '\n' ifaceBody).map pyStrip).find?
    fun line => pyStartsWith line (method ++ "(")

/-- `parse_return_type`: `sig.rsplit(")", 1)` keeps the text after the last
`)` (empty result when `)` is absent), strips it, and would strip one pair of
outer parentheses — the stripped text can never contain `)`, so that branch
never fires. -/
def parse_return_type (sig : String) : String :=
  let r := sig.data.reverse
  match r.dropWhile (fun c => c ≠ ')') with
  | [] => ""
  | _ :: _ =>
    let ret := String.mk (stripChars (r.takeWhile (fun c => c ≠ ')')).reverse)
    if pyStartsWith ret "(" && pyEndsWith ret ")" then
      String.mk ((ret.data.drop 1).dropLast)
    else ret

/-- The zero-value chain of `gen_zero_return` for one stripped return-type
token, in the order tested in the source. -/
def zeroValueFor (p : String) : String :=
  if p = "error" then "fmt.Errorf(\"not implemented\")"
  else if pyStartsWith p "*" then "nil"
  else if pyStartsWith p "[]" then "nil"
  else if pyStartsWith p "[]*" then "nil"
  else if pyStartsWith p "map[" then "nil"
  else if pyStartsWith p "<-chan" then "nil"
  else if p = "string" then "\"\""
  else if p = "bool" then "false"
  else if p = "int" then "0"
  else if p = "float64" then "0"
  else "nil"

/-- `gen_zero_return`: split the return string on commas, strip each part, map
each part through the zero-value chain and join with `", "`. -/
def gen_zero_return (ret_str : String) : String :=
  pyJoin ", " (((pySplit ',' ret_str).map pyStrip).map zeroValueFor)

/-- Python `method[0].lower() + method[1:]` (empty string maps to itself;
every name in the hard-coded lists is nonempty). -/
def lowerFirst (s : String) : String :=
  match s.data with
  | [] => ""
  | c :: cs => String.mk (c.toLower :: cs)

/-- The four lines (plus trailing blank) appended for one stubbed method. -/
def stubFor (receiver method sig : String) : List String :=
  ["// " ++ method ++ " is the resolver for the " ++ lowerFirst method ++ " field.",
   "func (r *" ++ receiver ++ ") " ++ sig ++ " \x7b",
   "\treturn " ++ gen_zero_return (parse_return_type sig),
   "\x7d", ""]

/-- One stub-generation loop of `gen_stubs.py`: for each assumed-missing
method, index the interface dictionary (a missing key raises `KeyError`),
look up the signature line, and skip the method silently when the line is
absent. -/
def genGroup (ifaces : List (String × String)) (ifaceName receiver : String) :
    List String → Except String (List String)
  | [] => Except.ok []
  | method :: rest =>
    match ifaces.lookup ifaceName with
    | none => Except.error ("KeyError: " ++ ifaceName)
    | some body =>
      let piece :=
        match extract_method_sig body method with
        | some sig => stubFor receiver method sig
        | none => []
      match genGroup ifaces ifaceName receiver rest with
      | Except.error e => Except.error e
      | Except.ok tail => Except.ok (piece ++ tail)

/-- The whole `gen_stubs.py` run on the contents of `generated.go`: header,
then mutation, query and subscription stubs; the produced line list is joined
with newlines and written once at the end, so an uncaught `KeyError` writes
nothing. -/
def genStubsRun (content : String) : Except String (List String) :=
  let ifaces := extractIfaceBodies content
  match genGroup ifaces "MutationResolver" "mutationResolver" missing_mutations with
  | Except.error e => Except.error e
  | Except.ok m =>
    match genGroup ifaces "QueryResolver" "queryResolver" missing_queries with
    | Except.error e => Except.error e
    | Except.ok q =>
      match genGroup ifaces "SubscriptionResolver" "subscriptionResolver" missing_subscriptions with
      | Except.error e => Except.error e
      | Except.ok s => Except.ok (stubsHeader ++ m ++ q ++ s)

/-! ### find_missing.py

A scanned source unit is a pair of its file name and, as the outcome of
`open`, `some` content when the file is readable and `none` when `open`
raises.  The script installs no exception handler, so an `OSError` from
`open` propagates and aborts the whole run (`Except.error`). -/

/-- `find_missing.py` interface extraction: same regex as `gen_stubs.py`, but
the dictionary value is `set(methods)` for the captured block. -/
def extractIfaceSets (content : String) : List (String × List String) :=
  ["MutationResolver", "QueryResolver", "SubscriptionResolver"].filterMap
    fun n =>
      (searchIfaceBody ("type " ++ n ++ " interface \x7b").data content.data).map
        fun body => (n, listToSet (findMethodNames body.data))

/-- `interfaces.get(iface_name, set())`. -/
def requiredOf (content iface : String) : List String :=
  ((extractIfaceSets content).lookup iface).getD []

/-- The `resolver_types` dictionary of `find_missing.py`. -/
def resolver_types : List (String × String) :=
  [("MutationResolver", "mutationResolver"),
   ("QueryResolver", "queryResolver"),
   ("SubscriptionResolver", "subscriptionResolver")]

/-- Per-line scan of one readable file: `re.search` of
`func \(r \*<receiver>\) (\w+)\(` on each line, collecting first groups. -/
def scanFileLines (receiver content : String) : List String :=
  (pySplit '\n' content).filterMap
    fun line => searchFuncDef ("func (r *" ++ receiver ++ ") ").data line.data

/-- The implementation scan of `find_missing.py` for one receiver: walk the
globbed files in order, skip `_test.go` files before opening them, abort with
the uncaught `OSError` on the first unreadable file, and otherwise add every
matched method name to the implemented set. -/
def scanImplemented (receiver : String) (acc : List String) :
    List (String × Option String) → Except String (List String)
  | [] => Except.ok acc
  | (name, contents) :: rest =>
    if pyEndsWith name "_test.go" then scanImplemented receiver acc rest
    else
      match contents with
      | none => Except.error ("OSError: " ++ name)
      | some content =>
        scanImplemented receiver
          ((scanFileLines receiver content).foldl (fun s m => addToSet m s) acc) rest

/-- `missing = sorted(required - implemented)`: set difference, then sorted. -/
def missingOf (required implemented : List String) : List String :=
  pySorted (required.filter fun m => decide (m ∉ implemented))

/-- The printed report for one interface: the header line with the two
counts, then either one line per missing name or the literal
`ALL IMPLEMENTED!` line. -/
def reportIface (ifaceName : String) (required implemented : List String) :
    List String :=
  let missing := missingOf required implemented
  let header := "\n--- " ++ ifaceName ++ ": " ++ toString implemented.length ++
    " implemented, " ++ toString missing.length ++ " missing ---"
  if missing.isEmpty then [header, "  ALL IMPLEMENTED!"]
  else header :: missing.map fun m => "  " ++ m

/-- The whole `find_missing.py` run: for each of the three interfaces, scan
the resolver files for the matching receiver and print the report. -/
def findMissingRun (content : String) (files : List (String × Option String)) :
    Except String (List String) :=
  resolver_types.foldlM
    (fun acc ir =>
      match scanImplemented ir.2 [] files with
      | Except.error e => Except.error e
      | Except.ok implemented =>
        Except.ok (acc ++ reportIface ir.1 (requiredOf content ir.1) implemented))
    []

/-! ### translate_and_update.py

The locale directory is an association list from file name to file data; the
only part of a locale JSON file the script rewrites is its `translations`
object, modelled as an ordered key/value list.  The external translation
service is an oracle `lang → text → attempt → Option String`: `some t` when
`translator.translate(...).text` returns `t` on that attempt, `none` when the
call raises.  File-system writes and `.bak` copies are recorded both in the
file system and as an event trace, so ordering properties (backup before
save) can be stated about whole runs. -/

/-- The `translations` object of one locale JSON file. -/
structure LocaleData where
  translations : List (String × String)
deriving DecidableEq

/-- The locale directory: file name to file data, first match wins. -/
abbrev FileSys := List (String × LocaleData)

/-- A file-mutating step of the batch tool, in execution order. -/
inductive FileEvent where
  | backup (name : String)
  | save (name : String)
deriving DecidableEq

/-- Look a file up by name. -/
def lookupFS : FileSys → String → Option LocaleData
  | [], _ => none
  | (n, d) :: rest, m => if n = m then some d else lookupFS rest m

/-- `Path.exists`. -/
def existsFS (fs : FileSys) (name : String) : Bool :=
  (lookupFS fs name).isSome

/-- Write a file: replace its data in place, or create it. -/
def writeFS : FileSys → String → LocaleData → FileSys
  | [], n, d => [(n, d)]
  | (m, e) :: rest, n, d =>
    if m = n then (m, d) :: rest else (m, e) :: writeFS rest n d

/-- `backup_file`: when the file exists, copy it to `<name>.bak`
(`with_suffix` appends `.bak` to the `.json` suffix) and record the backup;
a missing file is silently not backed up. -/
def backup_file (fs : FileSys) (name : String) : List FileEvent × FileSys :=
  match lookupFS fs name with
  | some d => ([FileEvent.backup name], writeFS fs (name ++ ".bak") d)
  | none => ([], fs)

/-- The phase-1 text rewrite: `Foreign → Starlink` then `Domestic → Iran`
(Python `str.replace` replaces every occurrence; the surrounding
containment test in the source is redundant).  One replacement pass, with
fuel bounded by the text length: each step consumes at least one character. -/
def replaceGo (pat sub : List Char) : Nat → List Char → List Char
  | _, [] => []
  | 0, cs => cs
  | fuel + 1, c :: cs =>
    if pat.isPrefixOf (c :: cs) then
      sub ++ replaceGo pat sub fuel ((c :: cs).drop pat.length)
    else c :: replaceGo pat sub fuel cs

/-- Python `str.replace(pat, sub)` for a nonempty pattern. -/
def pyReplace (s pat sub : String) : String :=
  String.mk (replaceGo pat.data sub.data s.data.length s.data)

/-- The phase-1 rewrite applied to one translation value. -/
def replaceForeignDomestic (v : String) : String :=
  pyReplace (pyReplace v "Foreign" "Starlink") "Domestic" "Iran"

/-- `phase1_update_english`: back up `message.en.json`, load it (`open`
raises when it is absent, aborting the run), rewrite every translation
value, save, and return the updated translations. -/
def phase1 (fs : FileSys) :
    Except String (List FileEvent × FileSys × List (String × String)) :=
  let b := backup_file fs "message.en.json"
  match lookupFS b.2 "message.en.json" with
  | none => Except.error "FileNotFoundError: message.en.json"
  | some d =>
    let tr := d.translations.map fun kv => (kv.1, replaceForeignDomestic kv.2)
    Except.ok (b.1 ++ [FileEvent.save "message.en.json"],
      writeFS b.2 "message.en.json" ⟨tr⟩, tr)

/-- The `ALL_LOCALES` list of the script. -/
def ALL_LOCALES : List String :=
  ["ar", "fa", "fr", "it", "ru", "sk", "sp", "tr", "zh"]

/-- `message.<locale>.json`. -/
def localeFile (l : String) : String :=
  "message." ++ l ++ ".json"

/-- The `LOCALE_TO_GOOGLE_LANG` dictionary. -/
def LOCALE_TO_GOOGLE_LANG : List (String × String) :=
  [("en", "en"), ("ar", "ar"), ("fa", "fa"), ("fr", "fr"), ("it", "it"),
   ("ru", "ru"), ("sk", "sk"), ("sp", "es"), ("tr", "tr"), ("zh", "zh-cn")]

/-- `phase2_copy_to_locales`: for each locale in `ALL_LOCALES` whose file
exists, back it up and save it with the English translations; missing files
are skipped. -/
def phase2Go (entr : List (String × String)) :
    List String → FileSys → List FileEvent × FileSys
  | [], fs => ([], fs)
  | l :: ls, fs =>
    let f := localeFile l
    if existsFS fs f then
      let b := backup_file fs f
      let rest := phase2Go entr ls (writeFS b.2 f ⟨entr⟩)
      (b.1 ++ FileEvent.save f :: rest.1, rest.2)
    else phase2Go entr ls fs

/-- Phase 2 over the fixed locale list. -/
def phase2 (entr : List (String × String)) (fs : FileSys) :
    List FileEvent × FileSys :=
  phase2Go entr ALL_LOCALES fs

/-- The retry loop of `translate_text`: attempts `first`, `first+1`, … while
fuel (the remaining allowed attempts) lasts; a raised exception on the last
attempt — or an exhausted range — yields `None`. -/
def translateGo (attempts : Nat → Option String) : Nat → Nat → Option String
  | 0, _ => none
  | fuel + 1, attempt =>
    match attempts attempt with
    | some t => some t
    | none => translateGo attempts fuel (attempt + 1)

/-- `translate_text(text, target_lang, max_retries)`: up to `max_retries`
attempts starting at attempt 0 (the translator-availability test is done by
the caller, which constructed the oracle). -/
def translate_text (attempts : Nat → Option String) (max_retries : Nat) :
    Option String :=
  translateGo attempts max_retries 0

/-- The per-entry loop of `phase3_translate_locale` (source lines 201–217):
each entry is translated with `translate_text`; a falsy result (`None` or the
empty string) keeps the English text and increments the `failed` counter,
a truthy result replaces the value and increments `translated`.  Returns the
updated translations and the two counters. -/
def phase3Entries (g : String → Nat → Option String) :
    List (String × String) → List (String × String) × Nat × Nat
  | [] => ([], 0, 0)
  | (k, v) :: rest =>
    let r := phase3Entries g rest
    match translate_text (g v) 3 with
    | some t =>
      if t = "" then ((k, v) :: r.1, r.2.1, r.2.2 + 1)
      else ((k, t) :: r.1, r.2.1 + 1, r.2.2)
    | none => ((k, v) :: r.1, r.2.1, r.2.2 + 1)

/-- `phase3_translate_locale`: fail fast (returning `False`) when the
translator is unavailable, the locale file is missing, or the locale is not
in `LOCALE_TO_GOOGLE_LANG`; otherwise translate every entry and save the
file — with no backup of its own. -/
def phase3_translate_locale (tavail : Bool)
    (oracle : String → String → Nat → Option String) (l : String)
    (fs : FileSys) : List FileEvent × FileSys × Bool :=
  if !tavail then ([], fs, false)
  else
    match lookupFS fs (localeFile l) with
    | none => ([], fs, false)
    | some d =>
      match LOCALE_TO_GOOGLE_LANG.lookup l with
      | none => ([], fs, false)
      | some lang =>
        let r := phase3Entries (oracle lang) d.translations
        ([FileEvent.save (localeFile l)],
         writeFS fs (localeFile l) ⟨r.1⟩, true)

/-- Phase 3 over the selected locales, threading the file system. -/
def phase3All (tavail : Bool)
    (oracle : String → String → Nat → Option String) :
    List String → FileSys → List FileEvent × FileSys
  | [], fs => ([], fs)
  | l :: ls, fs =>
    let r := phase3_translate_locale tavail oracle l fs
    let rest := phase3All tavail oracle ls r.2.1
    (r.1 ++ rest.1, rest.2)

/-- The command-line surface of the script.  `argparse` restricts
`--locales` to members of `ALL_LOCALES` (`choices=ALL_LOCALES`); an absent
`--locales` is the empty list. -/
structure CliArgs where
  locales : List String
  all : Bool
  skip_phase1 : Bool
  skip_phase2 : Bool

/-- The tail of `main()` after phase 1: phase 2 unless skipped, then — only
when `--all` or `--locales` was given — `sys.exit(1)` without the translator,
or phase 3 over the selected locales. -/
def mainPhases23 (args : CliArgs) (tavail : Bool)
    (oracle : String → String → Nat → Option String) (ev1 : List FileEvent)
    (entr : List (String × String)) (fs1 : FileSys) :
    Except String (List FileEvent × FileSys) :=
  let p2 := if args.skip_phase2 then (([] : List FileEvent), fs1)
    else phase2 entr fs1
  if args.all || !args.locales.isEmpty then
    if !tavail then Except.error "sys.exit(1)"
    else
      let ls := if args.all then ALL_LOCALES else args.locales
      let p3 := phase3All tavail oracle ls p2.2
      Except.ok (ev1 ++ (p2.1 ++ p3.1), p3.2)
  else Except.ok (ev1 ++ p2.1, p2.2)

/-- `main()`: phase 1 (or, when skipped, a bare load of the English file),
then `mainPhases23`.  The result is the ordered trace of file mutations and
the final directory. -/
def mainRun (args : CliArgs) (tavail : Bool)
    (oracle : String → String → Nat → Option String) (fs : FileSys) :
    Except String (List FileEvent × FileSys) :=
  match
    (if args.skip_phase1 then
      match lookupFS fs "message.en.json" with
      | none => Except.error "FileNotFoundError: message.en.json"
      | some d => Except.ok (([] : List FileEvent), fs, d.translations)
    else phase1 fs) with
  | Except.error e => Except.error e
  | Except.ok (ev1, fs1, entr) => mainPhases23 args tavail oracle ev1 entr fs1

/-! ### The backup-before-save trace property (the temporal check of claim C6) -/

/-- Walk a trace keeping the set of file names backed up so far; `true` iff
every save names a file already backed up earlier in the trace. -/
def backupBeforeSave (backed : List String) : List FileEvent → Bool
  | [] => true
  | FileEvent.backup n :: rest => backupBeforeSave (n :: backed) rest
  | FileEvent.save n :: rest =>
    if n ∈ backed then backupBeforeSave backed rest else false

/-- The backed-up-name set accumulated by a trace. -/
def backedAfter (backed : List String) : List FileEvent → List String
  | [] => backed
  | FileEvent.backup n :: rest => backedAfter (n :: backed) rest
  | FileEvent.save _ :: rest => backedAfter backed rest

/-! ### Sanity examples for the gen_stubs embedding (to be kept: they pin
concrete behaviour of the scanners used by several claims). -/

example : parse_return_type "Foo(ctx context.Context) error" = "error" := by decide

example :
    extract_method_sig "\n\tFoo(ctx context.Context) (*Widget, error)\n"
      "Foo" = some "Foo(ctx context.Context) (*Widget, error)" := by decide

example :
    searchIfaceBody ("type QueryResolver interface \x7b").data
      ("type QueryResolver interface \x7b\n\tFoo(ctx context.Context) error\n\x7d").data
      = some "\n\tFoo(ctx context.Context) error\n" := by decide

example :
    findMethodNames ("\n\tFoo(ctx context.Context) error\n\tBar(x int) bool\n").data
      = ["Foo", "Bar"] := by decide

/-! ### Claim C1 — stub body for a `(*Widget, error)` return list -/

/-- C1: the claim says that for the input signature
`Foo(ctx context.Context) (*Widget, error)` the generated body is exactly
`return nil, fmt.Errorf("not implemented")`.  The code disagrees:
`parse_return_type` splits at the *last* `)` of the signature, so for a
parenthesized return list it yields the empty string, `gen_zero_return ""`
is `"nil"`, and the emitted body line is `\treturn nil`.  Only when handed
the return-list text itself (`*Widget, error`) does `gen_zero_return`
produce the claimed expression — which, together with the unreachable
strip-outer-parentheses branch of `parse_return_type`, shows the slip. -/
theorem claim_C1_bug_eval :
    parse_return_type "Foo(ctx context.Context) (*Widget, error)" = "" ∧
    gen_zero_return (parse_return_type "Foo(ctx context.Context) (*Widget, error)") = "nil" ∧
    (stubFor "queryResolver" "Foo" "Foo(ctx context.Context) (*Widget, error)").get? 2 =
      some "\treturn nil" ∧
    gen_zero_return "*Widget, error" = "nil, fmt.Errorf(\"not implemented\")" := by
  refine ⟨by decide, by decide, by decide, by decide⟩

/-! ### Claim C3 — zero values for the float tokens -/

/-- C3 (counterexample): the claim says tokens `float64` and `float` map to
`0.0`; evaluating the zero-value chain refutes it for both tokens. -/
theorem claim_C3_counterexample :
    ¬(gen_zero_return "float64" = "0.0") ∧ ¬(gen_zero_return "float" = "0.0") := by
  refine ⟨by decide, by decide⟩

/-- C3 (amended): the token `float64` maps to the zero value `0`, and the
token `float` is not recognized by the chain, so it falls through to the
`nil` fallback. -/
theorem claim_C3_amended :
    gen_zero_return "float64" = "0" ∧ gen_zero_return "float" = "nil" := by
  refine ⟨by decide, by decide⟩

/-! ### Claim C8 — zero values for bool, string, int and []string -/

/-- C8: the zero-value mapping sends `bool` to `false`, `string` to `""`,
`int` to `0` and `[]string` to `nil`, exactly as the claim states. -/
theorem claim_C8_zero_values :
    gen_zero_return "bool" = "false" ∧
    gen_zero_return "string" = "\"\"" ∧
    gen_zero_return "int" = "0" ∧
    gen_zero_return "[]string" = "nil" := by
  refine ⟨by decide, by decide, by decide, by decide⟩

/-! ### Helper lemmas: membership in sorted lists and set differences -/

/-- Whether an `Except` computation succeeded (used to state that a run
completes normally versus aborts with an uncaught exception). -/
def exceptIsOk {α : Type} : Except String α → Bool
  | Except.ok _ => true
  | Except.error _ => false

theorem mem_insertSorted (a s : String) (ts : List String) :
    a ∈ insertSorted s ts ↔ a = s ∨ a ∈ ts := by
  induction ts with
  | nil => simp [insertSorted]
  | cons t ts ih =>
    cases h : lexLe s.data t.data with
    | true => simp [insertSorted, h]
    | false =>
      simp [insertSorted, h, ih]
      tauto

theorem mem_pySorted (a : String) (xs : List String) :
    a ∈ pySorted xs ↔ a ∈ xs := by
  induction xs with
  | nil => simp [pySorted]
  | cons x xs ih =>
    show a ∈ insertSorted x (pySorted xs) ↔ _
    rw [mem_insertSorted, ih]
    simp

theorem mem_missingOf (m : String) (required implemented : List String) :
    m ∈ missingOf required implemented ↔ m ∈ required ∧ m ∉ implemented := by
  unfold missingOf
  rw [mem_pySorted, List.mem_filter]
  simp

theorem reportIface_empty (ifaceName : String) (required implemented : List String)
    (h : missingOf required implemented = []) :
    reportIface ifaceName required implemented =
      ["\n--- " ++ ifaceName ++ ": " ++ toString implemented.length ++
        " implemented, " ++ toString (0 : Nat) ++ " missing ---",
       "  ALL IMPLEMENTED!"] := by
  simp [reportIface, h]

/-! ### Claim C2 — missing set is the set difference; empty set prints a flag -/

/-- C2: membership in the reported missing list is exactly membership in the
contract set minus the implemented set (case-sensitive string equality), and
when the difference is empty the report for the interface is the header
followed by the literal `ALL IMPLEMENTED!` line instead of a name list. -/
theorem claim_C2_missing_set (ifaceName : String) (required implemented : List String) :
    (∀ m, m ∈ missingOf required implemented ↔ m ∈ required ∧ m ∉ implemented) ∧
    (missingOf required implemented = [] →
      reportIface ifaceName required implemented =
        ["\n--- " ++ ifaceName ++ ": " ++ toString implemented.length ++
          " implemented, " ++ toString (0 : Nat) ++ " missing ---",
         "  ALL IMPLEMENTED!"]) := by
  exact ⟨fun m => mem_missingOf m required implemented,
    fun h => reportIface_empty ifaceName required implemented h⟩

/-- C2 witness: the theorem applied at concrete sets — one side with a
genuinely missing method, one side fully implemented. -/
theorem claim_C2_missing_set_witness :
    ("GatewayStatus" ∈ missingOf ["GatewayStatus"] [] ↔
      "GatewayStatus" ∈ ["GatewayStatus"] ∧ "GatewayStatus" ∉ ([] : List String)) ∧
    reportIface "QueryResolver" ["Foo"] ["Foo"] =
      ["\n--- QueryResolver: " ++ toString (["Foo"] : List String).length ++
        " implemented, " ++ toString (0 : Nat) ++ " missing ---",
       "  ALL IMPLEMENTED!"] :=
  ⟨(claim_C2_missing_set "QueryResolver" ["GatewayStatus"] []).1 "GatewayStatus",
   (claim_C2_missing_set "QueryResolver" ["Foo"] ["Foo"]).2 (by decide)⟩

/-! ### Claims C9 and C5 — file handling in the implementation scan -/

theorem scanImplemented_skips_test (receiver : String) :
    ∀ files acc, scanImplemented receiver acc files =
      scanImplemented receiver acc
        (files.filter fun f => !(pyEndsWith f.1 "_test.go")) := by
  intro files
  induction files with
  | nil => intro acc; rfl
  | cons f rest ih =>
    intro acc
    obtain ⟨name, contents⟩ := f
    cases h : pyEndsWith name "_test.go" with
    | true => simp [scanImplemented, List.filter_cons, h, ih]
    | false =>
      cases contents with
      | none => simp [scanImplemented, List.filter_cons, h]
      | some content => simp [scanImplemented, List.filter_cons, h, ih]

theorem scanImplemented_all_test (receiver : String) :
    ∀ files acc, (∀ f ∈ files, pyEndsWith f.1 "_test.go" = true) →
      scanImplemented receiver acc files = Except.ok acc := by
  intro files
  induction files with
  | nil => intro acc _; rfl
  | cons f rest ih =>
    intro acc h
    obtain ⟨name, contents⟩ := f
    have hf := h (name, contents) (List.mem_cons_self _ _)
    simp only at hf
    simp only [scanImplemented, hf, if_true]
    exact ih acc fun g hg => h g (List.mem_cons_of_mem _ hg)

/-- C9: the implementation scan is unchanged by deleting every `_test.go`
file from its input — method definitions in test files never reach the
implemented set — and when every scanned file is a test file the scan
returns the empty set, so every contract method is reported missing. -/
theorem claim_C9_test_files_excluded :
    (∀ receiver files acc, scanImplemented receiver acc files =
      scanImplemented receiver acc
        (files.filter fun f => !(pyEndsWith f.1 "_test.go"))) ∧
    (∀ receiver required files,
      (∀ f ∈ files, pyEndsWith f.1 "_test.go" = true) →
      scanImplemented receiver [] files = Except.ok [] ∧
      ∀ m, m ∈ missingOf required [] ↔ m ∈ required) := by
  refine ⟨fun receiver files acc => scanImplemented_skips_test receiver files acc,
    fun receiver required files h => ⟨scanImplemented_all_test receiver files [] h, ?_⟩⟩
  intro m
  rw [mem_missingOf]
  simp

/-- C9 witness: a resolver implemented only in a `_test.go` file contributes
nothing, and the method stays in the missing set. -/
theorem claim_C9_test_files_excluded_witness :
    pyEndsWith "resolver_test.go" "_test.go" = true ∧
    scanImplemented "queryResolver" []
      [("resolver_test.go",
        some "func (r *queryResolver) GatewayStatus(ctx context.Context) x")] =
      Except.ok [] ∧
    ("GatewayStatus" ∈ missingOf ["GatewayStatus"] [] ↔
      "GatewayStatus" ∈ ["GatewayStatus"]) := by
  refine ⟨by decide, ?_, ?_⟩
  · exact (claim_C9_test_files_excluded.2 "queryResolver" ["GatewayStatus"]
      [("resolver_test.go",
        some "func (r *queryResolver) GatewayStatus(ctx context.Context) x")]
      (by intro f hf; rw [List.mem_singleton] at hf; subst hf; decide)).1
  · exact (claim_C9_test_files_excluded.2 "queryResolver" ["GatewayStatus"]
      [("resolver_test.go",
        some "func (r *queryResolver) GatewayStatus(ctx context.Context) x")]
      (by intro f hf; rw [List.mem_singleton] at hf; subst hf; decide)).2
      "GatewayStatus"

theorem scanImplemented_ok_of_readable (receiver : String) :
    ∀ files acc, (∀ f ∈ files, pyEndsWith f.1 "_test.go" = false → f.2 ≠ none) →
      exceptIsOk (scanImplemented receiver acc files) = true := by
  intro files
  induction files with
  | nil => intro acc _; rfl
  | cons f rest ih =>
    intro acc h
    obtain ⟨name, contents⟩ := f
    cases ht : pyEndsWith name "_test.go" with
    | true =>
      simp only [scanImplemented, ht, if_true]
      exact ih acc fun g hg => h g (List.mem_cons_of_mem _ hg)
    | false =>
      cases contents with
      | none =>
        have := h (name, none) (List.mem_cons_self _ _)
        simp [ht] at this
      | some content =>
        simp only [scanImplemented, ht, Bool.false_eq_true, if_false]
        exact ih _ fun g hg => h g (List.mem_cons_of_mem _ hg)

theorem scanImplemented_error_of_unreadable (receiver name : String) :
    ∀ files acc, (name, (none : Option String)) ∈ files →
      pyEndsWith name "_test.go" = false →
      exceptIsOk (scanImplemented receiver acc files) = false := by
  intro files
  induction files with
  | nil => intro acc hmem _; cases hmem
  | cons f rest ih =>
    intro acc hmem hname
    rcases List.mem_cons.mp hmem with heq | htail
    · subst heq
      simp [scanImplemented, hname, exceptIsOk]
    · obtain ⟨n2, c2⟩ := f
      cases ht : pyEndsWith n2 "_test.go" with
      | true =>
        simp only [scanImplemented, ht, if_true]
        exact ih acc htail hname
      | false =>
        cases c2 with
        | none => simp [scanImplemented, ht, exceptIsOk]
        | some content =>
          simp only [scanImplemented, ht, Bool.false_eq_true, if_false]
          exact ih _ htail hname

/-- C5: the claim says an unreadable scanned file is skipped with a warning
and never aborts the run.  The code has no handler around `open`, so the
truth is the reverse: the scan completes exactly when every non-test file is
readable, and one unreadable non-test file makes the whole scan abort with
the uncaught `OSError` — partial results from earlier readable files are
lost. -/
theorem claim_C5_unreadable_aborts :
    (∀ receiver files acc,
      (∀ f ∈ files, pyEndsWith f.1 "_test.go" = false → f.2 ≠ none) →
      exceptIsOk (scanImplemented receiver acc files) = true) ∧
    (∀ receiver name files acc, (name, (none : Option String)) ∈ files →
      pyEndsWith name "_test.go" = false →
      exceptIsOk (scanImplemented receiver acc files) = false) :=
  ⟨fun receiver files acc h => scanImplemented_ok_of_readable receiver files acc h,
   fun receiver name files acc hmem hname =>
     scanImplemented_error_of_unreadable receiver name files acc hmem hname⟩

/-- C5 counterexample: a readable file followed by an unreadable one makes
the scan raise `OSError` instead of skipping with a warning, refuting the
claim that an unreadable scanned file never aborts the run. -/
theorem claim_C5_counterexample :
    scanImplemented "queryResolver" []
      [("resolver.go",
        some "func (r *queryResolver) GatewayStatus(ctx context.Context) x"),
       ("broken.go", none)] = Except.error "OSError: broken.go" := by rfl

/-- C5 witness: the amended theorem applied to a readable singleton (scan
succeeds) and to an unreadable non-test singleton (scan aborts). -/
theorem claim_C5_unreadable_aborts_witness :
    pyEndsWith "broken.go" "_test.go" = false ∧
    exceptIsOk (scanImplemented "queryResolver" []
      [("resolver.go",
        some "func (r *queryResolver) GatewayStatus(ctx context.Context) x")]) = true ∧
    exceptIsOk (scanImplemented "queryResolver" []
      [("broken.go", (none : Option String))]) = false :=
  ⟨by decide,
   claim_C5_unreadable_aborts.1 "queryResolver"
     [("resolver.go",
       some "func (r *queryResolver) GatewayStatus(ctx context.Context) x")] []
     (by intro f hf; rw [List.mem_singleton] at hf; subst hf; intro _; simp),
   claim_C5_unreadable_aborts.2 "queryResolver" "broken.go"
     [("broken.go", (none : Option String))] []
     (List.mem_singleton.mpr rfl) (by decide)⟩

/-! ### Claim C4 — interface name absent from the source text -/

theorem requiredOf_of_lookup_none (content iface : String)
    (h : (extractIfaceSets content).lookup iface = none) :
    requiredOf content iface = [] := by
  simp [requiredOf, h]

theorem missingOf_nil_left (implemented : List String) :
    missingOf [] implemented = [] := by
  rfl

theorem genGroup_isOk_of_present (ifaces : List (String × String))
    (name receiver body : String) (h : ifaces.lookup name = some body) :
    ∀ ms, exceptIsOk (genGroup ifaces name receiver ms) = true := by
  intro ms
  induction ms with
  | nil => rfl
  | cons m rest ih =>
    simp only [genGroup, h]
    cases hrec : genGroup ifaces name receiver rest with
    | error e =>
      rw [hrec] at ih
      simp [exceptIsOk] at ih
    | ok tail => rfl

theorem genStubsRun_isOk_false_of_absent (content : String) (iface : String)
    (hmem : iface = "MutationResolver" ∨ iface = "QueryResolver" ∨
      iface = "SubscriptionResolver")
    (h : (extractIfaceBodies content).lookup iface = none) :
    exceptIsOk (genStubsRun content) = false := by
  cases hm : (extractIfaceBodies content).lookup "MutationResolver" with
  | none =>
    simp only [genStubsRun, missing_mutations, genGroup, hm]
    rfl
  | some bodyM =>
    cases hq : (extractIfaceBodies content).lookup "QueryResolver" with
    | none =>
      simp only [genStubsRun]
      have h1 := genGroup_isOk_of_present (extractIfaceBodies content)
        "MutationResolver" "mutationResolver" bodyM hm missing_mutations
      cases hg1 : genGroup (extractIfaceBodies content) "MutationResolver"
          "mutationResolver" missing_mutations with
      | error e =>
        rw [hg1] at h1
        simp [exceptIsOk] at h1
      | ok m =>
        simp only [missing_queries, genGroup, hq]
        rfl
    | some bodyQ =>
      have hs : (extractIfaceBodies content).lookup "SubscriptionResolver" = none := by
        rcases hmem with h1 | h1 | h1
        · rw [h1] at h; rw [h] at hm; cases hm
        · rw [h1] at h; rw [h] at hq; cases hq
        · rw [h1] at h; exact h
      simp only [genStubsRun]
      have h1 := genGroup_isOk_of_present (extractIfaceBodies content)
        "MutationResolver" "mutationResolver" bodyM hm missing_mutations
      cases hg1 : genGroup (extractIfaceBodies content) "MutationResolver"
          "mutationResolver" missing_mutations with
      | error e =>
        rw [hg1] at h1
        simp [exceptIsOk] at h1
      | ok m =>
        have h2 := genGroup_isOk_of_present (extractIfaceBodies content)
          "QueryResolver" "queryResolver" bodyQ hq missing_queries
        cases hg2 : genGroup (extractIfaceBodies content) "QueryResolver"
            "queryResolver" missing_queries with
        | error e =>
          rw [hg2] at h2
          simp [exceptIsOk] at h2
        | ok q =>
          simp only [missing_subscriptions, genGroup, hs]
          rfl

/-- C4: the claim says both tools treat an interface absent from the source
as an empty method mapping and complete normally.  The reporting tool does:
`interfaces.get(name, set())` yields the empty set, the missing list is
empty, and the `ALL IMPLEMENTED!` report is printed.  The stub synthesizer
does not: it indexes its interface dictionary directly, so whichever of the
three interface names of interest is absent, the loop over the corresponding
hard-coded missing list raises an uncaught `KeyError` (stub groups for
interfaces that are present complete first) and the run writes nothing. -/
theorem claim_C4_absent_iface :
    (∀ content iface impl, (extractIfaceSets content).lookup iface = none →
      requiredOf content iface = [] ∧
      (∀ m, m ∉ missingOf (requiredOf content iface) impl) ∧
      reportIface iface (requiredOf content iface) impl =
        ["\n--- " ++ iface ++ ": " ++ toString impl.length ++
          " implemented, " ++ toString (0 : Nat) ++ " missing ---",
         "  ALL IMPLEMENTED!"]) ∧
    (∀ content iface,
      (iface = "MutationResolver" ∨ iface = "QueryResolver" ∨
        iface = "SubscriptionResolver") →
      (extractIfaceBodies content).lookup iface = none →
      exceptIsOk (genStubsRun content) = false) := by
  constructor
  · intro content iface impl h
    have hreq := requiredOf_of_lookup_none content iface h
    refine ⟨hreq, ?_, ?_⟩
    · intro m hm
      rw [hreq, missingOf_nil_left] at hm
      cases hm
    · rw [hreq]
      exact reportIface_empty iface [] impl (missingOf_nil_left impl)
  · intro content iface hmem h
    exact genStubsRun_isOk_false_of_absent content iface hmem h

/-- C4 counterexample: on a source text containing none of the three
interfaces, the stub synthesizer raises `KeyError` on its first hard-coded
mutation instead of completing with zero methods, refuting the claim that
both tools complete normally. -/
theorem claim_C4_counterexample :
    genStubsRun "package main" = Except.error "KeyError: MutationResolver" := by
  rfl

/-- C4 witness: the theorem applied to the concrete source text
`package main` (every interface of interest absent) and to a source text
declaring only `MutationResolver` — the synthesizer also aborts when only
`QueryResolver` is absent, after the mutation stub group completed. -/
theorem claim_C4_absent_iface_witness :
    (extractIfaceSets "package main").lookup "QueryResolver" = none ∧
    requiredOf "package main" "QueryResolver" = [] ∧
    reportIface "QueryResolver" (requiredOf "package main" "QueryResolver") ["Foo"] =
      ["\n--- QueryResolver: " ++ toString (["Foo"] : List String).length ++
        " implemented, " ++ toString (0 : Nat) ++ " missing ---",
       "  ALL IMPLEMENTED!"] ∧
    exceptIsOk (genStubsRun "package main") = false ∧
    (extractIfaceBodies
        "type MutationResolver interface \x7b\n\tCreateRoutingChain(ctx context.Context) error\n\x7d").lookup
      "QueryResolver" = none ∧
    exceptIsOk (genStubsRun
      "type MutationResolver interface \x7b\n\tCreateRoutingChain(ctx context.Context) error\n\x7d") =
      false :=
  ⟨by rfl,
   (claim_C4_absent_iface.1 "package main" "QueryResolver" ["Foo"] (by rfl)).1,
   (claim_C4_absent_iface.1 "package main" "QueryResolver" ["Foo"] (by rfl)).2.2,
   claim_C4_absent_iface.2 "package main" "MutationResolver" (Or.inl rfl) (by rfl),
   by rfl,
   claim_C4_absent_iface.2
     "type MutationResolver interface \x7b\n\tCreateRoutingChain(ctx context.Context) error\n\x7d"
     "QueryResolver" (Or.inr (Or.inl rfl)) (by rfl)⟩

/-! ### Claims C7 and C10 — the per-entry translation loop -/

theorem translateGo_none (attempts : Nat → Option String) :
    ∀ r s, (∀ j, j < r → attempts (s + j) = none) → translateGo attempts r s = none := by
  intro r
  induction r with
  | zero => intro s _; rfl
  | succ r ih =>
    intro s h
    have h0 : attempts s = none := by simpa using h 0 (Nat.succ_pos r)
    simp only [translateGo, h0]
    refine ih (s + 1) fun j hj => ?_
    have he : s + 1 + j = s + (j + 1) := by omega
    rw [he]
    exact h (j + 1) (by omega)

theorem translate_text_none (attempts : Nat → Option String)
    (h : ∀ j, j < 3 → attempts j = none) : translate_text attempts 3 = none := by
  refine translateGo_none attempts 3 0 fun j hj => ?_
  simpa using h j hj

theorem phase3Entries_fst (g : String → Nat → Option String) :
    ∀ entries, (phase3Entries g entries).1.map Prod.fst = entries.map Prod.fst := by
  intro entries
  induction entries with
  | nil => rfl
  | cons kv rest ih =>
    obtain ⟨k, v⟩ := kv
    simp only [phase3Entries]
    cases h : translate_text (g v) 3 with
    | none => simpa using ih
    | some t => by_cases ht : t = "" <;> simp [ht, ih]

theorem phase3Entries_length (g : String → Nat → Option String)
    (entries : List (String × String)) :
    (phase3Entries g entries).1.length = entries.length := by
  have := congrArg List.length (phase3Entries_fst g entries)
  simpa using this

theorem phase3Entries_forall₂ (g : String → Nat → Option String) :
    ∀ entries, List.Forall₂ (fun kv out => out.1 = kv.1 ∧
      (out.2 = kv.2 ∨ translate_text (g kv.2) 3 = some out.2))
      entries (phase3Entries g entries).1 := by
  intro entries
  induction entries with
  | nil => exact List.Forall₂.nil
  | cons kv rest ih =>
    obtain ⟨k, v⟩ := kv
    simp only [phase3Entries]
    cases h : translate_text (g v) 3 with
    | none => exact List.Forall₂.cons ⟨rfl, Or.inl rfl⟩ ih
    | some t =>
      by_cases ht : t = ""
      · simp only [ht, if_pos rfl]
        exact List.Forall₂.cons ⟨rfl, Or.inl rfl⟩ ih
      · simp only [if_neg ht]
        exact List.Forall₂.cons ⟨rfl, Or.inr h⟩ ih

theorem getD_mem :
    ∀ (entries : List (String × String)) (i : Nat) (k v : String),
      entries.getD i ("", "") = (k, v) → i < entries.length → (k, v) ∈ entries := by
  intro entries
  induction entries with
  | nil => intro i k v _ hi; simp at hi
  | cons kv rest ih =>
    intro i k v hget hi
    cases i with
    | zero =>
      rw [List.getD_cons_zero] at hget
      rw [hget] at *
      exact List.mem_cons_self _ _
    | succ n =>
      rw [List.getD_cons_succ] at hget
      exact List.mem_cons_of_mem _ (ih n k v hget (by simpa using hi))

theorem phase3Entries_getD_failed (g : String → Nat → Option String) :
    ∀ entries (i : Nat) (k v : String),
      entries.getD i ("", "") = (k, v) → i < entries.length →
      translate_text (g v) 3 = none →
      (phase3Entries g entries).1.getD i ("", "") = (k, v) := by
  intro entries
  induction entries with
  | nil => intro i k v _ hi _; simp at hi
  | cons kv rest ih =>
    intro i k v hget hi hfail
    obtain ⟨k0, v0⟩ := kv
    cases i with
    | zero =>
      rw [List.getD_cons_zero] at hget
      obtain ⟨hk, hv⟩ := Prod.mk.injEq .. ▸ hget
      subst hk
      subst hv
      simp only [phase3Entries, hfail, List.getD_cons_zero]
    | succ n =>
      rw [List.getD_cons_succ] at hget
      have hn : n < rest.length := by simpa using hi
      have hrec := ih n k v hget hn hfail
      simp only [phase3Entries]
      cases h : translate_text (g v0) 3 with
      | none => simpa [List.getD_cons_succ] using hrec
      | some t =>
        by_cases ht : t = "" <;> simp [ht, List.getD_cons_succ] <;>
          simpa using hrec

theorem phase3Entries_failed_pos (g : String → Nat → Option String) :
    ∀ entries (k v : String), (k, v) ∈ entries →
      translate_text (g v) 3 = none → 1 ≤ (phase3Entries g entries).2.2 := by
  intro entries
  induction entries with
  | nil => intro k v hmem _; cases hmem
  | cons kv rest ih =>
    intro k v hmem hfail
    obtain ⟨k0, v0⟩ := kv
    rcases List.mem_cons.mp hmem with heq | htail
    · obtain ⟨hk, hv⟩ := Prod.mk.injEq .. ▸ heq
      subst hk
      subst hv
      simp only [phase3Entries, hfail]
      omega
    · have hrec := ih k v htail hfail
      simp only [phase3Entries]
      cases h : translate_text (g v0) 3 with
      | none => simp only; omega
      | some t => by_cases ht : t = "" <;> (simp [ht]; try omega)

/-- C7: an entry whose translation call fails on all three retry attempts
keeps its original English value in the output, the `failed` counter
(reported as "Failed (kept English)") counts it, and the loop still
processes every other entry — the output has one entry per input entry. -/
theorem claim_C7_failed_entry_kept (g : String → Nat → Option String)
    (entries : List (String × String)) (i : Nat) (k v : String)
    (hget : entries.getD i ("", "") = (k, v)) (hi : i < entries.length)
    (hfail : ∀ j, j < 3 → g v j = none) :
    translate_text (g v) 3 = none ∧
    (phase3Entries g entries).1.getD i ("", "") = (k, v) ∧
    (phase3Entries g entries).1.length = entries.length ∧
    1 ≤ (phase3Entries g entries).2.2 := by
  have hnone : translate_text (g v) 3 = none := translate_text_none (g v) hfail
  exact ⟨hnone, phase3Entries_getD_failed g entries i k v hget hi hnone,
    phase3Entries_length g entries,
    phase3Entries_failed_pos g entries k v (getD_mem entries i k v hget hi) hnone⟩

/-- C7 witness: a one-entry batch whose oracle always raises — the entry
survives untranslated and is counted as failed. -/
theorem claim_C7_failed_entry_kept_witness :
    ([("greeting", "Hello")] : List (String × String)).getD 0 ("", "") =
      ("greeting", "Hello") ∧
    (translate_text ((fun _ _ => none : String → Nat → Option String) "Hello") 3 = none ∧
     (phase3Entries (fun _ _ => none) [("greeting", "Hello")]).1.getD 0 ("", "") =
       ("greeting", "Hello") ∧
     (phase3Entries (fun _ _ => none) [("greeting", "Hello")]).1.length =
       ([("greeting", "Hello")] : List (String × String)).length ∧
     1 ≤ (phase3Entries (fun _ _ => none) [("greeting", "Hello")]).2.2) :=
  ⟨rfl, claim_C7_failed_entry_kept (fun _ _ => none) [("greeting", "Hello")] 0
    "greeting" "Hello" rfl (by decide) (fun j hj => rfl)⟩

theorem lookupFS_writeFS (n : String) (d : LocaleData) :
    ∀ fs m, lookupFS (writeFS fs n d) m =
      if n = m then some d else lookupFS fs m := by
  intro fs
  induction fs with
  | nil =>
    intro m
    simp only [writeFS, lookupFS]
  | cons p rest ih =>
    intro m
    obtain ⟨n0, d0⟩ := p
    simp only [writeFS]
    by_cases h0 : n0 = n
    · subst h0
      simp only [if_pos rfl, lookupFS]
      by_cases hm : n0 = m <;> simp [hm]
    · rw [if_neg h0]
      simp only [lookupFS]
      by_cases hm : n0 = m
      · subst hm
        rw [if_pos rfl, if_pos rfl, if_neg fun e => h0 e.symm]
      · rw [if_neg hm, if_neg hm, ih m]

/-- C10: whenever `phase3_translate_locale` reports success for a locale, the
saved translations object is the per-entry loop output for the loaded one:
it has exactly the original keys in the original order, and each value is
either the translation-service result for the original value or the original
value kept unchanged (on a falsy translation result). -/
theorem claim_C10_keys_preserved (tavail : Bool)
    (oracle : String → String → Nat → Option String) (l : String)
    (fs : FileSys) (ev : List FileEvent) (fs' : FileSys)
    (d : LocaleData) (lang : String)
    (hrun : phase3_translate_locale tavail oracle l fs = (ev, fs', true))
    (hd : lookupFS fs (localeFile l) = some d)
    (hlang : LOCALE_TO_GOOGLE_LANG.lookup l = some lang) :
    lookupFS fs' (localeFile l) =
      some ⟨(phase3Entries (oracle lang) d.translations).1⟩ ∧
    (phase3Entries (oracle lang) d.translations).1.map Prod.fst =
      d.translations.map Prod.fst ∧
    List.Forall₂ (fun kv out => out.1 = kv.1 ∧
      (out.2 = kv.2 ∨ translate_text (oracle lang kv.2) 3 = some out.2))
      d.translations (phase3Entries (oracle lang) d.translations).1 := by
  cases tavail with
  | false => simp [phase3_translate_locale] at hrun
  | true =>
    simp only [phase3_translate_locale, Bool.not_true, Bool.false_eq_true,
      if_false, hd, hlang] at hrun
    have hfs' := congrArg (fun p : List FileEvent × FileSys × Bool => p.2.1) hrun
    simp only at hfs'
    refine ⟨?_, phase3Entries_fst (oracle lang) d.translations,
      phase3Entries_forall₂ (oracle lang) d.translations⟩
    rw [← hfs', lookupFS_writeFS]
    simp

/-- C10 witness: a one-entry Persian locale file whose oracle translates
`Hello` to `Salam` — the saved file keeps the key and takes the service
result. -/
theorem claim_C10_keys_preserved_witness :
    lookupFS [("message.fa.json", LocaleData.mk [("greeting", "Salam")])]
      (localeFile "fa") =
      some ⟨(phase3Entries ((fun _ _ _ => some "Salam") "fa")
        [("greeting", "Hello")]).1⟩ ∧
    (phase3Entries ((fun _ _ _ => some "Salam" :
        String → String → Nat → Option String) "fa")
      [("greeting", "Hello")]).1.map Prod.fst =
      ([("greeting", "Hello")] : List (String × String)).map Prod.fst :=
  ⟨(claim_C10_keys_preserved true (fun _ _ _ => some "Salam") "fa"
      [("message.fa.json", ⟨[("greeting", "Hello")]⟩)]
      [FileEvent.save "message.fa.json"]
      [("message.fa.json", ⟨[("greeting", "Salam")]⟩)]
      ⟨[("greeting", "Hello")]⟩ "fa" rfl rfl rfl).1,
   (claim_C10_keys_preserved true (fun _ _ _ => some "Salam") "fa"
      [("message.fa.json", ⟨[("greeting", "Hello")]⟩)]
      [FileEvent.save "message.fa.json"]
      [("message.fa.json", ⟨[("greeting", "Salam")]⟩)]
      ⟨[("greeting", "Hello")]⟩ "fa" rfl rfl rfl).2.1⟩

/-! ### Claim C6 — backups precede saves -/

theorem existsFS_writeFS (fs : FileSys) (n : String) (d : LocaleData) (m : String) :
    existsFS (writeFS fs n d) m = if n = m then true else existsFS fs m := by
  unfold existsFS
  rw [lookupFS_writeFS]
  by_cases h : n = m <;> simp [h]

theorem existsFS_mono (fs : FileSys) (n : String) (d : LocaleData) (m : String)
    (h : existsFS fs m = true) : existsFS (writeFS fs n d) m = true := by
  rw [existsFS_writeFS]
  by_cases hn : n = m <;> simp [hn, h]

theorem bbs_append (xs ys : List FileEvent) :
    ∀ backed, backupBeforeSave backed (xs ++ ys) =
      (backupBeforeSave backed xs && backupBeforeSave (backedAfter backed xs) ys) := by
  induction xs with
  | nil => intro backed; simp [backupBeforeSave, backedAfter]
  | cons e rest ih =>
    intro backed
    cases e with
    | backup n => simp [backupBeforeSave, backedAfter, ih]
    | save n =>
      by_cases h : n ∈ backed
      · simp [backupBeforeSave, backedAfter, h, ih]
      · simp [backupBeforeSave, backedAfter, h]

theorem mem_backedAfter_of_mem (x : String) :
    ∀ (tr : List FileEvent) (backed : List String),
      x ∈ backed → x ∈ backedAfter backed tr := by
  intro tr
  induction tr with
  | nil => intro backed h; exact h
  | cons e rest ih =>
    intro backed h
    cases e with
    | backup n => exact ih (n :: backed) (List.mem_cons_of_mem n h)
    | save n => exact ih backed h

theorem mem_backedAfter_of_backup (f : String) :
    ∀ (tr : List FileEvent) (backed : List String),
      FileEvent.backup f ∈ tr → f ∈ backedAfter backed tr := by
  intro tr
  induction tr with
  | nil => intro backed h; cases h
  | cons e rest ih =>
    intro backed h
    cases e with
    | backup n =>
      rcases List.mem_cons.mp h with heq | htail
      · have hf : f = n := by injection heq
        subst hf
        exact mem_backedAfter_of_mem f rest (f :: backed) (List.mem_cons_self f backed)
      · exact ih (n :: backed) htail
    | save n =>
      rcases List.mem_cons.mp h with heq | htail
      · cases heq
      · exact ih backed htail

theorem bbs_of_saves :
    ∀ (tr : List FileEvent) (backed : List String),
      (∀ f, FileEvent.save f ∈ tr → f ∈ backed) →
      backupBeforeSave backed tr = true := by
  intro tr
  induction tr with
  | nil => intro backed _; rfl
  | cons e rest ih =>
    intro backed h
    cases e with
    | backup n =>
      simp only [backupBeforeSave]
      exact ih (n :: backed) fun f hf =>
        List.mem_cons_of_mem n (h f (List.mem_cons_of_mem _ hf))
    | save n =>
      have hn : n ∈ backed := h n (List.mem_cons_self _ _)
      simp only [backupBeforeSave, if_pos hn]
      exact ih backed fun f hf => h f (List.mem_cons_of_mem _ hf)

theorem phase2Go_bbs (entr : List (String × String)) :
    ∀ (ls : List String) (fs : FileSys) (backed : List String),
      backupBeforeSave backed (phase2Go entr ls fs).1 = true := by
  intro ls
  induction ls with
  | nil => intro fs backed; rfl
  | cons l rest ih =>
    intro fs backed
    cases hex : existsFS fs (localeFile l) with
    | false => simp only [phase2Go, hex, Bool.false_eq_true, if_false]; exact ih fs backed
    | true =>
      obtain ⟨d, hd⟩ := Option.isSome_iff_exists.mp hex
      simp only [phase2Go, hex, if_true, backup_file, hd]
      simp only [backupBeforeSave, List.mem_cons, if_pos (Or.inl rfl)]
      exact ih _ _

theorem phase2Go_backup_mem (entr : List (String × String)) (l : String) :
    ∀ (ls : List String) (fs : FileSys), l ∈ ls →
      existsFS fs (localeFile l) = true →
      FileEvent.backup (localeFile l) ∈ (phase2Go entr ls fs).1 := by
  intro ls
  induction ls with
  | nil => intro fs h _; cases h
  | cons l0 rest ih =>
    intro fs hmem hex
    rcases List.mem_cons.mp hmem with heq | htail
    · subst heq
      obtain ⟨d, hd⟩ := Option.isSome_iff_exists.mp hex
      simp only [phase2Go, hex, if_true, backup_file, hd]
      exact List.mem_cons_self _ _
    · cases hex0 : existsFS fs (localeFile l0) with
      | false =>
        simp only [phase2Go, hex0, Bool.false_eq_true, if_false]
        exact ih fs htail hex
      | true =>
        obtain ⟨d, hd⟩ := Option.isSome_iff_exists.mp hex0
        simp only [phase2Go, hex0, if_true, backup_file, hd]
        refine List.mem_cons_of_mem _ (List.mem_cons_of_mem _ ?_)
        exact ih _ htail (existsFS_mono _ _ _ _ (existsFS_mono _ _ _ _ hex))

theorem phase2Go_exists_rev (entr : List (String × String)) (m : String) :
    ∀ (ls : List String) (fs : FileSys),
      existsFS (phase2Go entr ls fs).2 m = true →
      existsFS fs m = true ∨ ∃ l ∈ ls, m = localeFile l ++ ".bak" := by
  intro ls
  induction ls with
  | nil => intro fs h; exact Or.inl h
  | cons l0 rest ih =>
    intro fs h
    cases hex0 : existsFS fs (localeFile l0) with
    | false =>
      rw [phase2Go] at h
      simp only [hex0, Bool.false_eq_true, if_false] at h
      rcases ih fs h with h1 | ⟨l, hl, he⟩
      · exact Or.inl h1
      · exact Or.inr ⟨l, List.mem_cons_of_mem _ hl, he⟩
    | true =>
      obtain ⟨d, hd⟩ := Option.isSome_iff_exists.mp hex0
      rw [phase2Go] at h
      simp only [hex0, if_true, backup_file, hd] at h
      rcases ih _ h with h1 | ⟨l, hl, he⟩
      · rw [existsFS_writeFS] at h1
        by_cases hf0 : localeFile l0 = m
        · subst hf0
          exact Or.inl hex0
        · rw [if_neg hf0] at h1
          rw [existsFS_writeFS] at h1
          by_cases hbak : localeFile l0 ++ ".bak" = m
          · exact Or.inr ⟨l0, List.mem_cons_self _ _, hbak.symm⟩
          · rw [if_neg hbak] at h1
            exact Or.inl h1
      · exact Or.inr ⟨l, List.mem_cons_of_mem _ hl, he⟩

theorem phase3_tl_exists_rev (tavail : Bool)
    (oracle : String → String → Nat → Option String) (l : String)
    (fs : FileSys) (m : String)
    (h : existsFS (phase3_translate_locale tavail oracle l fs).2.1 m = true) :
    existsFS fs m = true := by
  cases tavail with
  | false => simpa [phase3_translate_locale] using h
  | true =>
    rw [phase3_translate_locale] at h
    simp only [Bool.not_true, Bool.false_eq_true, if_false] at h
    cases hd : lookupFS fs (localeFile l) with
    | none => rw [hd] at h; exact h
    | some d =>
      rw [hd] at h
      cases hlang : LOCALE_TO_GOOGLE_LANG.lookup l with
      | none => rw [hlang] at h; exact h
      | some lang =>
        rw [hlang] at h
        simp only at h
        rw [existsFS_writeFS] at h
        by_cases hf : localeFile l = m
        · subst hf
          simp [existsFS, hd]
        · rwa [if_neg hf] at h

theorem phase3_tl_save_mem (tavail : Bool)
    (oracle : String → String → Nat → Option String) (l : String)
    (fs : FileSys) (f : String)
    (h : FileEvent.save f ∈ (phase3_translate_locale tavail oracle l fs).1) :
    f = localeFile l ∧ existsFS fs (localeFile l) = true := by
  cases tavail with
  | false => simp [phase3_translate_locale] at h
  | true =>
    rw [phase3_translate_locale] at h
    simp only [Bool.not_true, Bool.false_eq_true, if_false] at h
    cases hd : lookupFS fs (localeFile l) with
    | none => rw [hd] at h; cases h
    | some d =>
      rw [hd] at h
      cases hlang : LOCALE_TO_GOOGLE_LANG.lookup l with
      | none => rw [hlang] at h; cases h
      | some lang =>
        rw [hlang] at h
        simp only [List.mem_singleton] at h
        have hf : f = localeFile l := by injection h
        exact ⟨hf, by simp [existsFS, hd]⟩

theorem phase3All_save_exists (tavail : Bool)
    (oracle : String → String → Nat → Option String) (f : String) :
    ∀ (ls : List String) (fs : FileSys),
      FileEvent.save f ∈ (phase3All tavail oracle ls fs).1 →
      (∃ l ∈ ls, f = localeFile l) ∧ existsFS fs f = true := by
  intro ls
  induction ls with
  | nil => intro fs h; cases h
  | cons l0 rest ih =>
    intro fs h
    rw [phase3All] at h
    rcases List.mem_append.mp h with h1 | h2
    · obtain ⟨hf, hex⟩ := phase3_tl_save_mem tavail oracle l0 fs f h1
      exact ⟨⟨l0, List.mem_cons_self _ _, hf⟩, hf ▸ hex⟩
    · obtain ⟨⟨l, hl, hf⟩, hex⟩ := ih _ h2
      exact ⟨⟨l, List.mem_cons_of_mem _ hl, hf⟩,
        phase3_tl_exists_rev tavail oracle l0 fs f hex⟩

theorem ne_json_bak (a b : String) : a ++ ".json" ≠ b ++ ".bak" := by
  intro h
  have hd : a.data ++ ".json".data = b.data ++ ".bak".data := by
    have h1 : (a ++ ".json").data = a.data ++ ".json".data := rfl
    have h2 : (b ++ ".bak").data = b.data ++ ".bak".data := rfl
    rw [← h1, ← h2, h]
  have hrev := congrArg List.reverse hd
  rw [List.reverse_append, List.reverse_append] at hrev
  have h1 : (".json".data).reverse = 'n' :: ['o', 's', 'j', '.'] := by decide
  have h2 : (".bak".data).reverse = 'k' :: ['a', 'b', '.'] := by decide
  rw [h1, h2] at hrev
  simp at hrev

theorem phase1_ok_events (fs : FileSys) (ev : List FileEvent) (fs1 : FileSys)
    (entr : List (String × String))
    (h : phase1 fs = Except.ok (ev, fs1, entr)) :
    ev = [FileEvent.backup "message.en.json", FileEvent.save "message.en.json"] := by
  cases hl : lookupFS fs "message.en.json" with
  | none =>
    rw [phase1] at h
    simp only [backup_file, hl] at h
    exact absurd h (by simp)
  | some d =>
    rw [phase1] at h
    simp only [backup_file, hl, lookupFS_writeFS,
      if_neg (by decide : ¬("message.en.json" ++ ".bak" = "message.en.json"))] at h
    injection h with h3
    have := congrArg (fun p : List FileEvent × FileSys × List (String × String) => p.1) h3
    simpa using this.symm

theorem mainPhases23_bbs (args : CliArgs) (tavail : Bool)
    (oracle : String → String → Nat → Option String) (ev1 : List FileEvent)
    (entr : List (String × String)) (fs1 : FileSys)
    (tr : List FileEvent) (fs' : FileSys)
    (h2 : args.skip_phase2 = false)
    (hl : ∀ l ∈ args.locales, l ∈ ALL_LOCALES)
    (hbbs1 : backupBeforeSave [] ev1 = true)
    (hok : mainPhases23 args tavail oracle ev1 entr fs1 = Except.ok (tr, fs')) :
    backupBeforeSave [] tr = true := by
  rw [mainPhases23] at hok
  rw [h2] at hok
  simp only [Bool.false_eq_true, if_false, phase2] at hok
  cases hreq : (args.all || !args.locales.isEmpty) with
  | false =>
    rw [hreq] at hok
    simp only [Bool.false_eq_true, if_false] at hok
    injection hok with hok3
    have htr := congrArg (fun p : List FileEvent × FileSys => p.1) hok3
    simp only at htr
    rw [← htr, bbs_append, Bool.and_eq_true]
    exact ⟨hbbs1, phase2Go_bbs entr ALL_LOCALES fs1 _⟩
  | true =>
    rw [hreq] at hok
    simp only [if_true] at hok
    cases tavail with
    | false => exact absurd hok (by simp)
    | true =>
      simp only [Bool.not_true, Bool.false_eq_true, if_false] at hok
      injection hok with hok3
      have htr := congrArg (fun p : List FileEvent × FileSys => p.1) hok3
      simp only at htr
      rw [← htr, bbs_append, bbs_append, Bool.and_eq_true, Bool.and_eq_true]
      refine ⟨hbbs1, phase2Go_bbs entr ALL_LOCALES fs1 _, ?_⟩
      refine bbs_of_saves _ _ fun f hf => ?_
      obtain ⟨⟨l, hlmem, hfl⟩, hex2⟩ :=
        phase3All_save_exists true oracle f _ _ hf
      have hlAll : l ∈ ALL_LOCALES := by
        cases ha : args.all with
        | true => simpa [ha] using hlmem
        | false => exact hl l (by simpa [ha] using hlmem)
      rcases phase2Go_exists_rev entr f ALL_LOCALES fs1 hex2 with hex1 | ⟨l2, _, hbak⟩
      · have hbk := phase2Go_backup_mem entr l ALL_LOCALES fs1 hlAll (hfl ▸ hex1)
        exact hfl ▸ mem_backedAfter_of_backup (localeFile l) _ _ hbk
      · have hcontr : ("message." ++ l) ++ ".json" = localeFile l2 ++ ".bak" :=
          hfl.symm.trans hbak
        exact absurd hcontr (ne_json_bak ("message." ++ l) (localeFile l2))

/-- C6 (amended): phases 1 and 2 always back a file up immediately before
saving it, and in every completed run in which phase 2 is *not* skipped
(with argparse-valid locale selections), every save of the run — including
each phase-3 save, which performs no backup of its own — is preceded by a
`.bak` backup of the same file earlier in the trace of the run.  The original
unconditional claim fails for runs that skip phase 2, because
`phase3_translate_locale` never calls `backup_file`. -/
theorem claim_C6_backup_precedes_save (args : CliArgs) (tavail : Bool)
    (oracle : String → String → Nat → Option String) (fs : FileSys)
    (tr : List FileEvent) (fs' : FileSys)
    (h2 : args.skip_phase2 = false)
    (hl : ∀ l ∈ args.locales, l ∈ ALL_LOCALES)
    (hok : mainRun args tavail oracle fs = Except.ok (tr, fs')) :
    backupBeforeSave [] tr = true := by
  rw [mainRun] at hok
  cases h1 : args.skip_phase1 with
  | true =>
    rw [h1] at hok
    simp only [if_true] at hok
    cases hen : lookupFS fs "message.en.json" with
    | none => rw [hen] at hok; exact absurd hok (by simp)
    | some d =>
      rw [hen] at hok
      simp only at hok
      exact mainPhases23_bbs args tavail oracle [] d.translations fs tr fs'
        h2 hl rfl hok
  | false =>
    rw [h1] at hok
    simp only [Bool.false_eq_true, if_false] at hok
    cases hp1 : phase1 fs with
    | error e => rw [hp1] at hok; exact absurd hok (by simp)
    | ok t =>
      obtain ⟨ev1, fs1, entr⟩ := t
      rw [hp1] at hok
      simp only at hok
      have hev1 := phase1_ok_events fs ev1 fs1 entr hp1
      refine mainPhases23_bbs args tavail oracle ev1 entr fs1 tr fs' h2 hl ?_ hok
      rw [hev1]
      decide

/-- C6 counterexample: run `--skip-phase1 --skip-phase2 --locales fa` on a
directory holding the English file and a Persian file.  The run succeeds and
its whole trace is one save of the existing `message.fa.json`, with no
backup anywhere in the run — refuting the claim that no phase saves over an
existing file without a preceding same-run backup. -/
theorem claim_C6_counterexample :
    mainRun ⟨["fa"], false, true, true⟩ true (fun _ _ _ => none)
      [("message.en.json", ⟨[]⟩), ("message.fa.json", ⟨[("greeting", "Hi")]⟩)] =
      Except.ok ([FileEvent.save "message.fa.json"],
        [("message.en.json", ⟨[]⟩),
         ("message.fa.json", ⟨[("greeting", "Hi")]⟩)]) ∧
    backupBeforeSave [] [FileEvent.save "message.fa.json"] = false :=
  ⟨rfl, by decide⟩

/-- C6 witness: the amended theorem applied to a full run (phase 2 active,
no locales selected) over a directory holding only the English file. -/
theorem claim_C6_backup_precedes_save_witness :
    ((⟨[], false, true, false⟩ : CliArgs).skip_phase2 = false) ∧
    backupBeforeSave [] [] = true :=
  ⟨rfl,
   claim_C6_backup_precedes_save ⟨[], false, true, false⟩ true
     (fun _ _ _ => none) [("message.en.json", ⟨[]⟩)] []
     [("message.en.json", ⟨[]⟩)] rfl (by simp) rfl⟩
